import Mathlib

/-!
Verification of the Roborock vacuum map parser (files
vacuum_map_parser_roborock/map_data_parser.py and
vacuum_map_parser_roborock/image_parser.py) against its
natural-language specification.

The Python source is shallowly embedded: byte buffers are `List Nat`
(each entry one byte), fallible reads return `Option`, and the byte
arithmetic of the source is kept literally (shifts, masks, ors).
-/

set_option maxRecDepth 4096

/-- Embeds `RoborockMapDataParser._get_bytes`: Python slice
`data[start_index : start_index + size]` with non-negative arguments.
Python slicing clamps to the available range and never raises. -/
def getBytes (data : List Nat) (start_index size : Nat) : List Nat :=
  (data.drop start_index).take size

/-- Embeds `RoborockMapDataParser._get_int8`: `data[address] & 0xFF`.
The indexing raises (here: `none`) when `address` is out of range. -/
def getInt8 (data : List Nat) (address : Nat) : Option Nat := do
  let b0 ← data.get? address
  pure (b0 &&& 0xFF)

/-- Embeds `RoborockMapDataParser._get_int16`:
`((data[address] << 0) & 0xFF) | ((data[address+1] << 8) & 0xFFFF)`. -/
def getInt16 (data : List Nat) (address : Nat) : Option Nat := do
  let b0 ← data.get? address
  let b1 ← data.get? (address + 1)
  pure (((b0 <<< 0) &&& 0xFF) ||| ((b1 <<< 8) &&& 0xFFFF))

/-- Embeds `RoborockMapDataParser._get_int32`: four bytes, little endian,
with the same mask pattern as the source. -/
def getInt32 (data : List Nat) (address : Nat) : Option Nat := do
  let b0 ← data.get? address
  let b1 ← data.get? (address + 1)
  let b2 ← data.get? (address + 2)
  let b3 ← data.get? (address + 3)
  pure ((((b0 <<< 0) &&& 0xFF) ||| ((b1 <<< 8) &&& 0xFFFF)) |||
        (((b2 <<< 16) &&& 0xFFFFFF) ||| ((b3 <<< 24) &&& 0xFFFFFFFF)))

/-- Semantic category of one pixel code, as described by the spec
(section 4.2). -/
inductive PixelCategory where
  | Outside
  | Wall
  | Inside
  | Scan
  | GreyWall
  | WallV2
  | RoomFloor (roomId : Nat)
  | Unknown
  deriving DecidableEq

/-- Embeds `RoborockImageParser._get_room_number`:
`(pixel_type & 0xFF) >> 3`. -/
def getRoomNumber (pixel_type : Nat) : Nat :=
  (pixel_type &&& 0xFF) >>> 3

/-- Embeds the pixel decision chain of `RoborockImageParser.parse`
(the `elif` ladder after the carpet test, image_parser.py lines 53-88):
0x00 outside, then 0x01 wall, then 0xFF inside, then 0x07 scan, then
`obstacle = pixel_type & 0x07` with 0 grey wall, 1 wall v2,
7 room floor (room id from `_get_room_number`), anything else unknown. -/
def classifyPixel (pixel_type : Nat) : PixelCategory :=
  if pixel_type = 0x00 then .Outside
  else if pixel_type = 0x01 then .Wall
  else if pixel_type = 0xFF then .Inside
  else if pixel_type = 0x07 then .Scan
  else
    let obstacle := pixel_type &&& 0x07
    if obstacle = 0 then .GreyWall
    else if obstacle = 1 then .WallV2
    else if obstacle = 7 then .RoomFloor (getRoomNumber pixel_type)
    else .Unknown

/-- Modelled from the spec, section 4.2: the ordered decision rule the
claim C2 states, written from the words of the spec for comparison with
`classifyPixel`, which is written from the source. -/
def classifyPixelSpecRule (pixel_code : Nat) : PixelCategory :=
  if pixel_code = 0x00 then .Outside
  else if pixel_code = 0x01 then .Wall
  else if pixel_code = 0xFF then .Inside
  else if pixel_code = 0x07 then .Scan
  else if pixel_code &&& 0x07 = 0 then .GreyWall
  else if pixel_code &&& 0x07 = 1 then .WallV2
  else if pixel_code &&& 0x07 = 7 then .RoomFloor ((pixel_code &&& 0xFF) >>> 3)
  else .Unknown

/-- Map point as produced by the parser: the source `Point(x, y, a)` with
`a` defaulting to `None`. Coordinates come from the unsigned readers. -/
structure RPoint where
  x : Nat
  y : Nat
  a : Option Int := none
  deriving DecidableEq

/-- Embeds `RoborockMapDataParser._parse_object_position`: reads x and y
as 32-bit little-endian values; when the block body is longer than 8
bytes it also reads a raw 32-bit angle and, when that value exceeds
0xFF, replaces it by `(raw & 0xFF) - 256`. -/
def parseObjectPosition (block_data_length : Nat) (data : List Nat) :
    Option RPoint := do
  let x ← getInt32 data 0x00
  let y ← getInt32 data 0x04
  if 8 < block_data_length then
    let raw ← getInt32 data 0x08
    let a : Int := if 0xFF < raw then ((raw &&& 0xFF : Nat) : Int) - 256 else (raw : Int)
    pure ⟨x, y, some a⟩
  else
    pure ⟨x, y, none⟩

/-- Obstacle record as produced by `_parse_obstacles`; absent sub-fields
stay `none`. The confidence is a rational here; the source computes it
in floating point as `u1 * 10.0 / u2`. The photo name is kept as its
raw ASCII bytes. -/
structure RObstacle where
  x : Nat
  y : Nat
  obstacleType : Option Nat := none
  description : Option String := none
  confidence : Option ℚ := none
  photoName : Option (List Nat) := none
  deriving DecidableEq

/-- The static obstacle type table `KNOWN_OBSTACLE_TYPES` of the source. -/
def knownObstacleTypes : List (Nat × String) :=
  [(0, "cable"), (1, "pet waste"), (2, "shoes"), (3, "poop"),
   (4, "pedestal"), (5, "extension cord"), (9, "weighting scale"),
   (10, "clothes"), (25, "dustpan"), (26, "furniture with a crossbar"),
   (27, "furniture with a crossbar"), (34, "clothes"), (48, "cable"),
   (49, "pet"), (50, "pet"), (51, "fabric/paper balls")]

/-- Association-list lookup used for the obstacle type table. -/
def tableGet (k : Nat) : List (Nat × String) → Option String
  | [] => none
  | (k2, v) :: rest => if k2 = k then some v else tableGet k rest

/-- One iteration of the record loop of `_parse_obstacles`: reads x and
y, then conditionally on the record size the type code (and its
description), the two confidence words, and the photo name bytes. The
photo name read first indexes `data[obstacle_start + 12]` and then
slices 16 bytes; `.decode("ascii")` fails on any byte at or above
0x80. -/
def parseObstacleRecord (data : List Nat) (obstacle_start obstacle_size : Nat) :
    Option RObstacle := do
  let x ← getInt16 data (obstacle_start + 0)
  let y ← getInt16 data (obstacle_start + 2)
  if 6 ≤ obstacle_size then
    let ty ← getInt16 data (obstacle_start + 4)
    let description := tableGet ty knownObstacleTypes
    if 10 ≤ obstacle_size then
      let u1 ← getInt16 data (obstacle_start + 6)
      let u2 ← getInt16 data (obstacle_start + 8)
      let confidence : ℚ := if u2 = 0 then 0 else u1 * 10 / u2
      if obstacle_size = 28 then
        let flag ← data.get? (obstacle_start + 12)
        if 0 < flag &&& 0xFF then
          let txt := getBytes data (obstacle_start + 12) 16
          if txt.all (fun b => b < 128) then
            pure ⟨x, y, some ty, description, some confidence, some txt⟩
          else
            none
        else
          pure ⟨x, y, some ty, description, some confidence, none⟩
      else
        pure ⟨x, y, some ty, description, some confidence, none⟩
    else
      pure ⟨x, y, some ty, description, none, none⟩
  else
    pure ⟨x, y, none, none, none, none⟩

/-- The record loop `for obstacle_start in range(0, pairs * size, size)`
of `_parse_obstacles`: `count` records starting at 0, stepping by
`obstacle_size`. -/
def obstaclesLoop (data : List Nat) (obstacle_size : Nat) :
    Nat → Nat → Option (List RObstacle)
  | 0, _ => some []
  | count + 1, start => do
      let ob ← parseObstacleRecord data start obstacle_size
      let rest ← obstaclesLoop data obstacle_size count (start + obstacle_size)
      pure (ob :: rest)

/-- Embeds `RoborockMapDataParser._parse_obstacles`: record count from
header offset 8; zero count returns the empty list; otherwise the record
size is `int(len(data) / count)` (floor division; the source divides in
floating point and truncates with `int`). A zero record size would make
the Python `range` step zero, which raises, hence `none`. There is no
divisibility check anywhere. -/
def parseObstacles (data header : List Nat) : Option (List RObstacle) := do
  let obstacle_pairs ← getInt16 header 0x08
  if obstacle_pairs = 0 then
    pure []
  else
    let obstacle_size := data.length / obstacle_pairs
    if obstacle_size = 0 then
      none
    else
      obstaclesLoop data obstacle_size obstacle_pairs 0

/-- Association-list lookup modelling a Python dict read (`d[k]` via
`k in d`, or `try ... except KeyError`). -/
def dictGet {α : Type} (k : Nat) : List (Nat × α) → Option α
  | [] => none
  | (k2, v) :: rest => if k2 = k then some v else dictGet k rest

/-- Association-list update modelling a Python dict write `d[k] = v`:
an existing key keeps its position, a new key is appended, matching
dict insertion order. -/
def dictInsert {α : Type} (k : Nat) (v : α) : List (Nat × α) → List (Nat × α)
  | [] => [(k, v)]
  | (k2, v2) :: rest =>
      if k2 = k then (k, v) :: rest else (k2, v2) :: dictInsert k v rest

/-- The colors the image parser draws with. The fixed category colors
come from `cached_colors`; `roomColor` models the external
`ColorsPalette.get_room_color` collaborator. -/
structure Palette where
  carpet : Nat
  outside : Nat
  wall : Nat
  inside : Nat
  scan : Nat
  greyWall : Nat
  wallV2 : Nat
  unknown : Nat
  roomColor : Nat → Nat

/-- A concrete palette used for closed evaluations. -/
def palFixed : Palette :=
  ⟨10, 11, 12, 13, 14, 15, 16, 17, fun r => 100 + r⟩

/-- The source linear index computed by `RoborockImageParser.parse`
(image_parser.py lines 39, 45, 47): `trimmed_left_width = trim_left +
width`, `img_x_offset = trimmed_left_width * (img_y + trim_bottom)`,
`idx = img_x + img_x_offset`. This same `idx` is used both for the
pixel read and for the carpet-map membership test. -/
def srcIdx (width trim_left trim_bottom img_x img_y : Nat) : Nat :=
  img_x + (trim_left + width) * (img_y + trim_bottom)

/-- Modelled from the spec, sections 3 and 4.3: the source linear index
the spec prescribes, over the untrimmed top-origin layout with stride
`width`: `(img_x + trim_left) + width * (img_y + trim_bottom)`. -/
def srcIdxSpecRule (width trim_left trim_bottom img_x img_y : Nat) : Nat :=
  (img_x + trim_left) + width * (img_y + trim_bottom)

/-- Observable state built by one `RoborockImageParser.parse` call:
the pixel writes (in write order), the per-room bounding boxes
(`rooms`), the room-color cache contents (`cached_room_colors`, which
in the source is the palette's dict, shared across calls), and how many
times `get_room_color` was invoked on the palette collaborator. -/
structure ImgState where
  pixels : List ((Nat × Nat) × Nat)
  rooms : List (Nat × (Nat × Nat × Nat × Nat))
  cache : List (Nat × Nat)
  roomColorCalls : Nat
  deriving DecidableEq

/-- The per-room bounding-box update of `RoborockImageParser.parse`
(image_parser.py lines 71-79): first sighting starts a point box,
later sightings take component-wise min of the mins and max of the
maxes. -/
def updateRoomBBox (cur : Option (Nat × Nat × Nat × Nat)) (p : Nat × Nat) :
    Nat × Nat × Nat × Nat :=
  match cur with
  | none => (p.1, p.2, p.1, p.2)
  | some (a, b, c, d) => (min a p.1, min b p.2, max c p.1, max d p.2)

/-- The carpet test of `RoborockImageParser.parse` line 51:
`carpet_map is not None and idx in carpet_map and (x + y) % 2`. -/
def carpetTest (carpet : Option (List Nat)) (idx x y : Nat) : Bool :=
  match carpet with
  | none => false
  | some s => s.contains idx && (x + y) % 2 == 1

/-- Per-call context of the image parse loop. -/
structure ImgCtx where
  pal : Palette
  raw : List Nat
  width : Nat
  carpet : Option (List Nat)
  trimLeft : Nat
  trimBottom : Nat
  trimmedHeight : Nat

/-- One pixel write `pixels[x, y] = c`. Each loop iteration writes a
distinct coordinate, so a write log is a faithful model. -/
def writePixel (st : ImgState) (x y c : Nat) : ImgState :=
  { st with pixels := st.pixels ++ [((x, y), c)] }

/-- The body of the inner pixel loop of `RoborockImageParser.parse`
(image_parser.py lines 47-88): computes `idx`, reads the pixel byte
(failing like Python on an out-of-range index), applies the carpet
test, then the classification ladder (`classifyPixel` embeds that
ladder literally); a room-floor pixel updates the bounding box dict and
resolves its color through the room-color cache, falling back to
`get_room_color` and writing the result into the shared cache on a
miss. -/
def pixelStep (ctx : ImgCtx) (imgY imgX : Nat) (st : ImgState) :
    Option ImgState := do
  let idx := srcIdx ctx.width ctx.trimLeft ctx.trimBottom imgX imgY
  let pixel_type ← ctx.raw.get? idx
  let x := imgX
  let y := ctx.trimmedHeight - imgY - 1
  if carpetTest ctx.carpet idx x y then
    pure (writePixel st x y ctx.pal.carpet)
  else
    match classifyPixel pixel_type with
    | .Outside => pure (writePixel st x y ctx.pal.outside)
    | .Wall => pure (writePixel st x y ctx.pal.wall)
    | .Inside => pure (writePixel st x y ctx.pal.inside)
    | .Scan => pure (writePixel st x y ctx.pal.scan)
    | .GreyWall => pure (writePixel st x y ctx.pal.greyWall)
    | .WallV2 => pure (writePixel st x y ctx.pal.wallV2)
    | .RoomFloor room_number =>
        let room_x := imgX + ctx.trimLeft
        let room_y := imgY + ctx.trimBottom
        let st2 := { st with
          rooms := dictInsert room_number
            (updateRoomBBox (dictGet room_number st.rooms) (room_x, room_y))
            st.rooms }
        match dictGet room_number st2.cache with
        | some c => pure (writePixel st2 x y c)
        | none =>
            let c := ctx.pal.roomColor room_number
            pure (writePixel
              { st2 with cache := dictInsert room_number c st2.cache,
                         roomColorCalls := st2.roomColorCalls + 1 } x y c)
    | .Unknown => pure (writePixel st x y ctx.pal.unknown)

/-- The inner `for img_x in range(trimmed_width)` loop. -/
def pixelLoop (ctx : ImgCtx) (imgY : Nat) :
    List Nat → ImgState → Option ImgState
  | [], st => some st
  | imgX :: rest, st => do
      pixelLoop ctx imgY rest (← pixelStep ctx imgY imgX st)

/-- The outer `for img_y in range(trimmed_height)` loop. -/
def rowLoop (ctx : ImgCtx) (trimmedWidth : Nat) :
    List Nat → ImgState → Option ImgState
  | [], st => some st
  | imgY :: rest, st => do
      rowLoop ctx trimmedWidth rest
        (← pixelLoop ctx imgY (List.range trimmedWidth) st)

/-- Embeds `RoborockImageParser.parse`: computes the trimmed dimensions
from the (already integer) trim offsets, returns the empty result for a
zero source dimension, and otherwise runs the row/pixel loops starting
from an empty rooms dict and the incoming room-color cache (in the
source that cache is `self._colors_palette.cached_room_colors`, state
of the palette object that outlives the call). The final resize is
external (PIL) and changes no observable modelled here. -/
def imageParse (pal : Palette) (trim_left trim_right trim_top trim_bottom : Nat)
    (raw : List Nat) (width height : Nat) (carpet : Option (List Nat))
    (cache0 : List (Nat × Nat)) : Option ImgState :=
  let trimmed_height := height - trim_top - trim_bottom
  let trimmed_width := width - trim_left - trim_right
  if width == 0 || height == 0 then
    some ⟨[], [], cache0, 0⟩
  else
    rowLoop ⟨pal, raw, width, carpet, trim_left, trim_bottom, trimmed_height⟩
      trimmed_width (List.range trimmed_height) ⟨[], [], cache0, 0⟩

/-- Folding the bounding-box update over a pixel sequence from a given
starting state; `roomBBox` is the room's box after its pixels are
processed in the given order (lines 71-79 of the source, restricted to
one room id). -/
def roomBBoxFrom (s : Option (Nat × Nat × Nat × Nat)) (l : List (Nat × Nat)) :
    Option (Nat × Nat × Nat × Nat) :=
  l.foldl (fun st p => some (updateRoomBBox st p)) s

/-- The bounding box accumulated for one room from its pixel sequence. -/
def roomBBox (l : List (Nat × Nat)) : Option (Nat × Nat × Nat × Nat) :=
  roomBBoxFrom none l

/-- Python `bytes` indexing with an `Int` index: a non-negative index
reads directly, a negative index within `-len .. -1` wraps to
`len + i`, anything else raises. -/
def pyGetByte (data : List Nat) (i : Int) : Option Nat :=
  if 0 ≤ i then data.get? i.toNat
  else if (-i).toNat ≤ data.length then data.get? (data.length - (-i).toNat)
  else none

/-- Embeds `RoborockImageParser.get_room_at_pixel`: reads
`raw_data[x + width * y]` (Python index semantics), then returns the
room number only when the byte is not MAP_INSIDE or MAP_SCAN and its
low three bits are 7; `None` otherwise. The outer `Option` is the
exception channel, the inner one is the `int | None` result. -/
def getRoomAtPixel (raw : List Nat) (width x y : Int) : Option (Option Nat) := do
  let pixel_type ← pyGetByte raw (x + width * y)
  if pixel_type ≠ 0xFF ∧ pixel_type ≠ 0x07 then
    if pixel_type &&& 0x07 = 7 then
      pure (some (getRoomNumber pixel_type))
    else
      pure none
  else
    pure none

/-- Projects the room id out of a classification: `some` exactly on
`RoomFloor`. -/
def roomFloorId : PixelCategory → Option Nat
  | .RoomFloor r => some r
  | _ => none

/-- One iteration of the TLV scanning loop of
`RoborockMapDataParser.parse` (map_data_parser.py lines 107-174),
restricted to what determines the next position: header length from
`raw[pos+2:pos+4]`, the header slice, the block type and body length
reads (which can raise), the body slice, and the advance
`pos + body_length + _get_int8(header, 2)`. Block dispatch never
changes the position. -/
def stepPos (raw : List Nat) (block_start_position : Nat) : Option Nat := do
  let block_header_length ← getInt16 raw (block_start_position + 0x02)
  let header := getBytes raw block_start_position block_header_length
  let _block_type ← getInt16 header 0x00
  let block_data_length ← getInt32 header 0x04
  let _data := getBytes raw (block_start_position + block_header_length)
    block_data_length
  let adv ← getInt8 header 2
  pure (block_start_position + block_data_length + adv)

/-- Fuelled run of the scanning loop `while block_start_position <
len(raw)`. Outer `none` means the fuel ran out (the loop is still
running); `some none` means a read raised; `some (some p)` means the
loop reached its terminal condition at position `p`. -/
def walkRun (raw : List Nat) : Nat → Nat → Option (Option Nat)
  | 0, pos => if raw.length ≤ pos then some (some pos) else none
  | fuel + 1, pos =>
      if raw.length ≤ pos then some (some pos)
      else
        match stepPos raw pos with
        | none => some none
        | some next => walkRun raw fuel next

/-- A 32-byte buffer whose map header length is 20 and whose block at
position 20 declares a header length of 256 (low byte 0) and a body
length of 0, so the scanning loop never advances. Block type 99 is
unknown, so dispatch only logs. -/
def loopBuffer : List Nat :=
  [0, 0, 20, 0, 0, 0, 0, 0, 0, 0, 0, 0, 0, 0, 0, 0,
   0, 0, 0, 0, 99, 0, 0, 1, 0, 0, 0, 0, 0, 0, 0, 0]

/-- A 12-byte buffer (map header length 4) on which every position
either advances strictly or makes a read raise. -/
def advanceBuffer : List Nat :=
  [1, 1, 4, 0, 1, 1, 1, 1, 1, 1, 1, 1]

/-- A path as produced by `_parse_path` and `_parse_mop_path`:
`Path(point_length, point_size, angle, path)` where `path` is a list of
polylines. -/
structure RPath where
  pointLength : Nat
  pointSize : Nat
  angle : Nat
  path : List (List RPoint)
  deriving DecidableEq

/-- The inner `for i, point in enumerate(each_path)` loop of
`RoborockMapDataParser._parse_mop_path` together with the two
statements that follow it: a point whose mask byte is truthy is
appended to the current run; if the next mask byte exists and is falsy
the run is flushed; after the loop the current run is appended
unconditionally (even when empty). `mask[i]` raises on a too-short
mask, hence the `Option`. State: current run, flushed polylines,
running point count. -/
def mopLoop (mask : List Nat) :
    List RPoint → Nat → List RPoint → List (List RPoint) → Nat →
    Option (List (List RPoint) × Nat)
  | [], _, mop_path_points, mop_paths, points_num =>
      some (mop_paths ++ [mop_path_points], points_num + mop_path_points.length)
  | point :: rest, i, mop_path_points, mop_paths, points_num =>
      match mask.get? i with
      | none => none
      | some m =>
          if m ≠ 0 then
            let cur := mop_path_points ++ [point]
            if i + 1 < mask.length ∧ mask.getD (i + 1) 0 = 0 then
              mopLoop mask rest (i + 1) [] (mop_paths ++ [cur])
                (points_num + cur.length)
            else
              mopLoop mask rest (i + 1) cur mop_paths points_num
          else
            mopLoop mask rest (i + 1) mop_path_points mop_paths points_num

/-- The outer `for each_path in path.path` loop of `_parse_mop_path`:
the flushed polylines and the point count accumulate across polylines,
the enumeration index restarts at 0 for each polyline. -/
def mopPathsLoop (mask : List Nat) :
    List (List RPoint) → List (List RPoint) → Nat →
    Option (List (List RPoint) × Nat)
  | [], mop_paths, points_num => some (mop_paths, points_num)
  | pl :: rest, mop_paths, points_num => do
      let st ← mopLoop mask pl 0 [] mop_paths points_num
      mopPathsLoop mask rest st.1 st.2

/-- Embeds `RoborockMapDataParser._parse_mop_path`: runs the loops and
rebuilds `Path(points_num, path.point_size, path.angle, mop_paths)`. -/
def parseMopPath (path : RPath) (mask : List Nat) : Option RPath := do
  let st ← mopPathsLoop mask path.path [] 0
  pure ⟨st.2, path.pointSize, path.angle, st.1⟩

/-- Modelled from the spec, section 4.4 (mop-path): the maximal
contiguous runs of consecutive points whose mask byte is non-zero, in
source order. A point whose mask byte is zero belongs to no run; a
point whose mask byte is non-zero starts a new run when the next point
is absent or unset, and otherwise is prepended to the run its successor
belongs to. -/
def maskRuns : List (RPoint × Nat) → List (List RPoint)
  | [] => []
  | (p, m) :: rest =>
      if m = 0 then maskRuns rest
      else
        match rest with
        | [] => [[p]]
        | (_, mq) :: _ =>
            if mq = 0 then [p] :: maskRuns rest
            else
              match maskRuns rest with
              | [] => [[p]]
              | r1 :: rs => (p :: r1) :: rs

/-- Whether the final point of the masked sequence is set (so the last
run extends to the end and is flushed only by the trailing append). -/
def lastSet : List (RPoint × Nat) → Bool
  | [] => false
  | [(_, m)] => m != 0
  | _ :: rest => lastSet rest

/-- The polylines `_parse_mop_path` produces for one polyline whose
mask has matching length: the maximal runs, plus one trailing empty
polyline when the final mask byte is unset (or the polyline is empty),
coming from the unconditional append after the loop. -/
def maskRunsT (zp : List (RPoint × Nat)) : List (List RPoint) :=
  maskRuns zp ++ (if lastSet zp then [] else [[]])

/-- Whether the head of the remaining masked sequence is unset: the
flush condition of the loop, on the zipped view. -/
def headUnset : List (RPoint × Nat) → Bool
  | [] => false
  | (_, mq) :: _ => mq == 0

/-- The loop of `_parse_mop_path` re-expressed on the zipped
point/mask sequence (the bridge between `mopLoop` and `maskRuns`):
returns the polylines appended during the rest of the loop, given the
current run. -/
def consume : List (RPoint × Nat) → List RPoint → List (List RPoint)
  | [], cur => [cur]
  | (p, m) :: rest, cur =>
      if m = 0 then consume rest cur
      else
        let cur2 := cur ++ [p]
        if headUnset rest then cur2 :: consume rest []
        else consume rest cur2

/-- Prepends `cur` onto the first polyline of the list (used to state
how an in-progress run merges with the remaining output). -/
def prependFirst (cur : List RPoint) : List (List RPoint) → List (List RPoint)
  | [] => [cur]
  | h :: t => (cur ++ h) :: t

/-- Total number of points over a list of polylines. -/
def sumLens (l : List (List RPoint)) : Nat :=
  (l.map List.length).sum

/-- C2: for every byte pixel code 0x00-0xFF the classifier embedded from
the source applies exactly the ordered decision rule of the spec,
yielding the same category and the same room id. Determinism is
immediate because `classifyPixel` is a function of the code alone. -/
theorem c2_pixel_classifier_confirmed :
    ∀ pc : Fin 256, classifyPixel pc.val = classifyPixelSpecRule pc.val := by
  decide

/-- C3 counterexample: `_get_bytes` does not fail when
`offset + length` exceeds the buffer size; it silently truncates.
Slicing a 2-byte buffer at offset 0 with length 5 returns the 2
available bytes and no error, while the claim requires an OutOfRange
failure and a result of exactly 5 bytes. -/
theorem c3_slice_counterexample :
    getBytes [1, 2] 0 5 = [1, 2] ∧ (getBytes [1, 2] 0 5).length ≠ 5 := by
  decide

/-- C3 amended: `_get_bytes` returns exactly `length` bytes whenever
`offset + length` fits in the buffer, and otherwise silently returns
only the `buffer_size - offset` available bytes (possibly none); it
never fails. The result length is always
`min length (buffer_size - offset)`. -/
theorem c3_slice_amended (data : List Nat) (start_index size : Nat) :
    (getBytes data start_index size).length =
      min size (data.length - start_index) := by
  simp [getBytes]

/-- C6 counterexample: the claim (repeating the worked example of the
spec) states that a raw 32-bit angle of 300 normalizes to 44. The code
applies `(raw & 0xFF) - 256` for every raw value above 0xFF, and
`(300 & 0xFF) - 256 = 44 - 256 = -212`, not 44. The body below encodes
x = 0, y = 0 and raw angle 300 in little endian. -/
theorem c6_angle_counterexample :
    parseObjectPosition 12 [0, 0, 0, 0, 0, 0, 0, 0, 44, 1, 0, 0] =
      some ⟨0, 0, some (-212)⟩ ∧ ((-212 : Int) ≠ 44) := by
  constructor
  · rfl
  · decide

/-- C6 amended: for every position block whose body length exceeds 8,
the decoded angle equals the raw 32-bit value when the raw value is at
most 0xFF and equals `(raw & 0xFF) - 256` otherwise; consequently raw
10 stays 10 while raw 300 becomes -212 (the claim cited 44, which
matches neither the code nor the formula the claim itself states). -/
theorem c6_angle_amended (block_data_length : Nat) (data : List Nat)
    (x y raw : Nat) (hx : getInt32 data 0x00 = some x)
    (hy : getInt32 data 0x04 = some y) (hr : getInt32 data 0x08 = some raw)
    (hlen : 8 < block_data_length) :
    parseObjectPosition block_data_length data =
      some ⟨x, y, some (if raw ≤ 0xFF then (raw : Int)
                        else ((raw &&& 0xFF : Nat) : Int) - 256)⟩ := by
  unfold parseObjectPosition
  rw [hx, hy]
  simp only [bind, Option.bind]
  rw [if_pos hlen, hr]
  simp only [bind, Option.bind, pure]
  by_cases hraw : 0xFF < raw
  · rw [if_pos hraw, if_neg (show ¬ raw ≤ 0xFF by omega)]
  · rw [if_neg hraw, if_pos (show raw ≤ 0xFF by omega)]

/-- A 16-bit read succeeds whenever both bytes are inside the buffer. -/
theorem getInt16_success (data : List Nat) (i : Nat) (h : i + 1 < data.length) :
    ∃ v, getInt16 data i = some v := by
  unfold getInt16
  rw [List.get?_eq_get (show i < data.length by omega), List.get?_eq_get h]
  exact ⟨_, rfl⟩

/-- Every obstacle record parse succeeds when the record, of size at
least 4 and other than 28, lies inside the buffer: all conditional
sub-field reads stay inside the record. -/
theorem parseObstacleRecord_success (data : List Nat) (start s : Nat)
    (h4 : 4 ≤ s) (h28 : s ≠ 28) (hb : start + s ≤ data.length) :
    ∃ ob, parseObstacleRecord data start s = some ob := by
  rw [← Option.isSome_iff_exists]
  obtain ⟨x, hx⟩ := getInt16_success data start (by omega)
  obtain ⟨y, hy⟩ := getInt16_success data (start + 2) (by omega)
  by_cases h6 : 6 ≤ s
  · obtain ⟨ty, hty⟩ := getInt16_success data (start + 4) (by omega)
    by_cases h10 : 10 ≤ s
    · obtain ⟨u1, hu1⟩ := getInt16_success data (start + 6) (by omega)
      obtain ⟨u2, hu2⟩ := getInt16_success data (start + 8) (by omega)
      simp [parseObstacleRecord, hx, hy, hty, hu1, hu2, h6, h10, h28]
    · simp [parseObstacleRecord, hx, hy, hty, h6, h10]
  · simp [parseObstacleRecord, hx, hy, h6]

/-- The obstacle record loop succeeds and yields one record per
iteration when all `count` records of size `s` (with `4 ≤ s`, `s ≠ 28`)
fit in the buffer. -/
theorem obstaclesLoop_success (data : List Nat) (s : Nat) (h4 : 4 ≤ s)
    (h28 : s ≠ 28) :
    ∀ count start, start + count * s ≤ data.length →
      ∃ l, obstaclesLoop data s count start = some l ∧ l.length = count := by
  intro count
  induction count with
  | zero => exact fun start _ => ⟨[], rfl, rfl⟩
  | succ n ih =>
    intro start hfit
    have hmul : (n + 1) * s = n * s + s := by ring
    obtain ⟨ob, hob⟩ := parseObstacleRecord_success data start s h4 h28
      (by omega)
    obtain ⟨l, hl, hlen⟩ := ih (start + s) (by omega)
    refine ⟨ob :: l, ?_, by simp [hlen]⟩
    unfold obstaclesLoop
    rw [hob, hl]
    rfl

/-- C6 witness: the amended rule evaluated at raw angle 300 (giving
-212) and at raw angle 10 (staying 10). -/
theorem c6_angle_witness :
    parseObjectPosition 12 [0, 0, 0, 0, 0, 0, 0, 0, 44, 1, 0, 0] =
      some ⟨0, 0, some (-212)⟩ ∧
    parseObjectPosition 12 [0, 0, 0, 0, 0, 0, 0, 0, 10, 0, 0, 0] =
      some ⟨0, 0, some 10⟩ := by
  constructor
  · exact (c6_angle_amended 12 [0, 0, 0, 0, 0, 0, 0, 0, 44, 1, 0, 0] 0 0 300
      (by decide) (by decide) (by decide) (by decide)).trans (by decide)
  · exact (c6_angle_amended 12 [0, 0, 0, 0, 0, 0, 0, 0, 10, 0, 0, 0] 0 0 10
      (by decide) (by decide) (by decide) (by decide)).trans (by decide)

/-- C5 counterexample: an obstacle body of 9 bytes with a record count
of 2 is not evenly divisible, yet `_parse_obstacles` does not fail: it
truncates the record size to `int(9 / 2) = 4` and parses two records.
The claim requires a DivisionInconsistency failure here. -/
theorem c5_obstacles_counterexample :
    (9 : Nat) % 2 ≠ 0 ∧
    parseObstacles (List.replicate 9 0) [0, 0, 0, 0, 0, 0, 0, 0, 2, 0] =
      some [⟨0, 0, none, none, none, none⟩, ⟨0, 0, none, none, none, none⟩] := by
  constructor
  · decide
  · rfl

/-- C5 amended: with the record count read from header offset 8, a zero
count yields the empty list; a non-zero count makes the parser proceed
with the truncated record size `floor(body_length / record_count)` and
no divisibility check of any kind: whenever that truncated size is at
least 4 and not 28, the parse succeeds with exactly `record_count`
records (divisible or not). -/
theorem c5_obstacles_amended (data header : List Nat) (pairs : Nat)
    (hp : getInt16 header 0x08 = some pairs) :
    (pairs = 0 → parseObstacles data header = some []) ∧
    (0 < pairs → 4 ≤ data.length / pairs → data.length / pairs ≠ 28 →
      ∃ obs, parseObstacles data header = some obs ∧ obs.length = pairs) := by
  constructor
  · intro h0
    unfold parseObstacles
    rw [hp]
    simp only [bind, Option.bind]
    rw [if_pos h0]
    rfl
  · intro hpos h4 h28
    obtain ⟨obs, hobs, hlen⟩ := obstaclesLoop_success data (data.length / pairs)
      h4 h28 pairs 0 (by
        have h1 := Nat.div_mul_le_self data.length pairs
        have h2 : pairs * (data.length / pairs) = data.length / pairs * pairs :=
          Nat.mul_comm _ _
        omega)
    refine ⟨obs, ?_, hlen⟩
    unfold parseObstacles
    rw [hp]
    simp only [bind, Option.bind]
    rw [if_neg (by omega), if_neg (by omega)]
    exact hobs

/-- C5 witness: the amended statement applied to the 9-byte body with
record count 2 of the counterexample: the division does not come out
even and the parse still returns two records. -/
theorem c5_obstacles_witness :
    (9 : Nat) % 2 ≠ 0 ∧
    ∃ obs, parseObstacles (List.replicate 9 0) [0, 0, 0, 0, 0, 0, 0, 0, 2, 0] =
      some obs ∧ obs.length = 2 := by
  refine ⟨by decide, ?_⟩
  exact (c5_obstacles_amended (List.replicate 9 0)
    [0, 0, 0, 0, 0, 0, 0, 0, 2, 0] 2 (by decide)).2 (by decide) (by decide)
    (by decide)

/-- C1: the claim is right and the code is wrong. The spec (and the
claim) require the source linear index
`(img_x + trim_left) + width * (img_y + trim_bottom)`; the source
instead computes `img_x + (trim_left + width) * (img_y + trim_bottom)`
(the `trim_left + width` factor is hoisted into `trimmed_left_width`
and multiplied by the row term). At width 4, height 4, trim_left 1
(25 percent), img_x 2, img_y 3 the code uses index 17 while the spec
index is 15; on a full 16-byte source buffer the code therefore reads
out of bounds and the whole parse raises, shown below by the evaluation
to `none`. The same wrong index feeds the carpet-map membership test. -/
theorem c1_index_code_bug :
    srcIdx 4 1 0 2 3 = 17 ∧
    srcIdxSpecRule 4 1 0 2 3 = 15 ∧
    srcIdx 4 1 0 2 3 ≠ srcIdxSpecRule 4 1 0 2 3 ∧
    (List.replicate 16 0xFF).length = 4 * 4 ∧
    imageParse palFixed 1 0 0 0 (List.replicate 16 0xFF) 4 4 none [] = none := by
  refine ⟨rfl, rfl, by decide, by decide, ?_⟩
  rfl

/-- C7 counterexample: the room-color cache is not scoped to one parse
call. With the shared cache empty, parsing a single room-floor pixel
(room id 1) returns the cache extended with the entry for room 1, and
that entry was produced by one `get_room_color` call; feeding the
returned cache into a second, otherwise identical parse call changes
its observable behaviour: the second call hits the cache and performs
zero `get_room_color` calls. The write of the first call is thus
observable by the later call, contradicting the claim. -/
theorem c7_cache_counterexample :
    imageParse palFixed 0 0 0 0 [0x0F] 1 1 none [] =
      some ⟨[((0, 0), 101)], [(1, (0, 0, 0, 0))], [(1, 101)], 1⟩ ∧
    imageParse palFixed 0 0 0 0 [0x0F] 1 1 none [(1, 101)] =
      some ⟨[((0, 0), 101)], [(1, (0, 0, 0, 0))], [(1, 101)], 0⟩ ∧
    [(1, 101)] ≠ ([] : List (Nat × Nat)) := by
  exact ⟨rfl, rfl, by decide⟩

/-- C7 amended: the bounding-box accumulator is per-call (each parse
starts from an empty rooms dict), but the room-color cache is the
palette's dict and is shared across calls: a parse that misses the
cache writes the synthesized room color into it and returns the
extended cache, and a later parse on the same instance observes that
write - it takes the cache-hit path and invokes `get_room_color` zero
times instead of once. This holds for every palette. -/
theorem c7_cache_amended (pal : Palette) :
    imageParse pal 0 0 0 0 [0x0F] 1 1 none [] =
      some ⟨[((0, 0), pal.roomColor 1)], [(1, (0, 0, 0, 0))],
            [(1, pal.roomColor 1)], 1⟩ ∧
    imageParse pal 0 0 0 0 [0x0F] 1 1 none [(1, pal.roomColor 1)] =
      some ⟨[((0, 0), pal.roomColor 1)], [(1, (0, 0, 0, 0))],
            [(1, pal.roomColor 1)], 0⟩ :=
  ⟨rfl, rfl⟩

/-- C9 counterexample: a buffer on which the scanning loop does not
advance. In `loopBuffer` the map header length is 20 and the block at
position 20 has body length 0 and a header-length field of 256 (whose
low byte, read back by `_get_int8(header, 2)`, is 0), so the next
position equals the current one: the loop never reaches the terminal
condition. After 100 iterations of fuel the loop is still running. -/
theorem c9_walker_counterexample :
    getInt16 loopBuffer 0x02 = some 20 ∧
    20 < loopBuffer.length ∧
    stepPos loopBuffer 20 = some 20 ∧
    walkRun loopBuffer 100 20 = none := by
  refine ⟨rfl, by decide, rfl, ?_⟩
  rfl

/-- C9 amended: the scanning loop terminates on every buffer in which
each in-range position strictly advances (body length plus the low
header-length byte positive, as in every well-formed TLV stream):
`length - start` iterations of fuel always suffice to reach the
terminal condition or an exception. On malformed buffers where some
reached block has body length 0 and header-length low byte 0 the
position stays fixed and the scan never terminates. -/
theorem c9_walker_amended (raw : List Nat)
    (hadv : ∀ p, p < raw.length → p < (stepPos raw p).getD (p + 1)) :
    ∀ fuel pos, raw.length - pos ≤ fuel → walkRun raw fuel pos ≠ none := by
  intro fuel
  induction fuel with
  | zero =>
    intro pos hle
    unfold walkRun
    rw [if_pos (by omega)]
    simp
  | succ n ih =>
    intro pos hle
    unfold walkRun
    by_cases hpos : raw.length ≤ pos
    · rw [if_pos hpos]
      simp
    · rw [if_neg hpos]
      cases hstep : stepPos raw pos with
      | none => simp
      | some next =>
        have hlt := hadv pos (by omega)
        rw [hstep] at hlt
        simp only [Option.getD_some] at hlt
        exact ih next (by omega)

/-- C9 witness: on `advanceBuffer` every in-range position advances or
raises, so the amended theorem applies: starting from the map header
length 4, the scan completes within the fuel bound. -/
theorem c9_walker_witness :
    walkRun advanceBuffer 13 4 ≠ none ∧
    getInt16 advanceBuffer 0x02 = some 4 :=
  ⟨c9_walker_amended advanceBuffer (by decide) 13 4 (by decide), by decide⟩

/-- Two bounding-box updates commute: processing two pixels in either
order yields the same box. -/
theorem updateRoomBBox_comm (s : Option (Nat × Nat × Nat × Nat))
    (p q : Nat × Nat) :
    updateRoomBBox (some (updateRoomBBox s p)) q =
      updateRoomBBox (some (updateRoomBBox s q)) p := by
  obtain ⟨p1, p2⟩ := p
  obtain ⟨q1, q2⟩ := q
  cases s with
  | none =>
    simp only [updateRoomBBox, Prod.mk.injEq]
    exact ⟨min_comm _ _, min_comm _ _, max_comm _ _, max_comm _ _⟩
  | some t =>
    obtain ⟨a, b, c, d⟩ := t
    simp only [updateRoomBBox, Prod.mk.injEq]
    exact ⟨min_right_comm _ _ _, min_right_comm _ _ _,
           Max.right_comm _ _ _, Max.right_comm _ _ _⟩

/-- The bounding-box fold is invariant under permutations of the pixel
sequence, from any starting state. -/
theorem roomBBoxFrom_perm (l1 l2 : List (Nat × Nat)) (h : l1.Perm l2) :
    ∀ s, roomBBoxFrom s l1 = roomBBoxFrom s l2 := by
  induction h with
  | nil => intro s; rfl
  | cons x _ ih =>
    intro s
    simp only [roomBBoxFrom, List.foldl_cons] at ih ⊢
    exact ih _
  | swap x y l =>
    intro s
    simp only [roomBBoxFrom, List.foldl_cons]
    rw [updateRoomBBox_comm]
  | trans _ _ ih1 ih2 =>
    intro s
    exact (ih1 s).trans (ih2 s)

/-- Closed form of the fold from a known box: component-wise min/max
folds over the pixel coordinates. -/
theorem roomBBoxFrom_closed (l : List (Nat × Nat)) :
    ∀ a b c d, roomBBoxFrom (some (a, b, c, d)) l =
      some ((l.map Prod.fst).foldl min a, (l.map Prod.snd).foldl min b,
            (l.map Prod.fst).foldl max c, (l.map Prod.snd).foldl max d) := by
  induction l with
  | nil => intro a b c d; rfl
  | cons p t ih =>
    intro a b c d
    obtain ⟨x, y⟩ := p
    simp only [roomBBoxFrom, List.foldl_cons, List.map_cons] at ih ⊢
    exact ih _ _ _ _

/-- A min-fold never exceeds its starting value. -/
theorem foldl_min_le (l : List Nat) : ∀ a : Nat, l.foldl min a ≤ a := by
  induction l with
  | nil => intro a; exact le_refl a
  | cons x t ih =>
    intro a
    calc (x :: t).foldl min a = t.foldl min (min a x) := by
          simp [List.foldl_cons]
      _ ≤ min a x := ih _
      _ ≤ a := min_le_left _ _

/-- A max-fold never drops below its starting value. -/
theorem le_foldl_max (l : List Nat) : ∀ a : Nat, a ≤ l.foldl max a := by
  induction l with
  | nil => intro a; exact le_refl a
  | cons x t ih =>
    intro a
    calc a ≤ max a x := le_max_left _ _
      _ ≤ t.foldl max (max a x) := ih _
      _ = (x :: t).foldl max a := by simp [List.foldl_cons]

/-- C10: bounding-box accumulation, exactly as the image decoder
performs it (`updateRoomBBox` folded over the room pixels), is
order-independent and monotone: (1) permuting the pixel sequence never
changes the final box; (2) the final box is the component-wise min/max
over all pixels of the room; (3) folding further pixels from any box
never increases the mins and never decreases the maxes. -/
theorem c10_bbox_confirmed :
    (∀ l1 l2 : List (Nat × Nat), l1.Perm l2 → roomBBox l1 = roomBBox l2) ∧
    (∀ (p : Nat × Nat) (l : List (Nat × Nat)),
      roomBBox (p :: l) =
        some ((l.map Prod.fst).foldl min p.1, (l.map Prod.snd).foldl min p.2,
              (l.map Prod.fst).foldl max p.1, (l.map Prod.snd).foldl max p.2)) ∧
    (∀ (s : Nat × Nat × Nat × Nat) (l : List (Nat × Nat))
      (t : Nat × Nat × Nat × Nat),
      roomBBoxFrom (some s) l = some t →
      t.1 ≤ s.1 ∧ t.2.1 ≤ s.2.1 ∧ s.2.2.1 ≤ t.2.2.1 ∧ s.2.2.2 ≤ t.2.2.2) := by
  refine ⟨fun l1 l2 h => roomBBoxFrom_perm l1 l2 h none, ?_, ?_⟩
  · intro p l
    obtain ⟨x, y⟩ := p
    show roomBBoxFrom (some (updateRoomBBox none (x, y))) l = _
    simp only [updateRoomBBox]
    exact roomBBoxFrom_closed l x y x y
  · intro s l t hfold
    obtain ⟨a, b, c, d⟩ := s
    rw [roomBBoxFrom_closed] at hfold
    obtain rfl : t = _ := (Option.some.injEq _ _).mp hfold.symm
    exact ⟨foldl_min_le _ a, foldl_min_le _ b, le_foldl_max _ c, le_foldl_max _ d⟩

/-- C10 witness: order independence on a concrete two-pixel swap and
monotonicity of a concrete two-pixel fold from the box (4, 2, 5, 7). -/
theorem c10_bbox_witness :
    roomBBox [(1, 5), (2, 0)] = roomBBox [(2, 0), (1, 5)] ∧
    ((3 : Nat) ≤ 4 ∧ (1 : Nat) ≤ 2 ∧ (5 : Nat) ≤ 6 ∧ (7 : Nat) ≤ 9) :=
  ⟨c10_bbox_confirmed.1 _ _ (List.Perm.swap _ _ _),
   c10_bbox_confirmed.2.2 (4, 2, 5, 7) [(3, 1), (6, 9)] (3, 1, 6, 9) (by decide)⟩

/-- The inner test of `get_room_at_pixel` agrees with the classifier:
for every byte the returned value is exactly the RoomFloor projection
of the pixel classification. -/
theorem getRoomAtPixel_classify (pt : Nat) :
    (if pt ≠ 0xFF ∧ pt ≠ 0x07 then
       if pt &&& 0x07 = 7 then some (getRoomNumber pt) else none
     else none) = roomFloorId (classifyPixel pt) := by
  by_cases hff : pt = 0xFF
  · subst hff; decide
  · by_cases h7 : pt = 0x07
    · subst h7; decide
    · rw [if_pos ⟨hff, h7⟩]
      by_cases h0 : pt = 0
      · subst h0; decide
      · by_cases h1 : pt = 1
        · subst h1; decide
        · unfold classifyPixel roomFloorId
          rw [if_neg h0, if_neg h1, if_neg hff, if_neg h7]
          by_cases hob : pt &&& 0x07 = 7
          · rw [if_pos hob, hob]
            rfl
          · rw [if_neg hob]
            by_cases hg : pt &&& 0x07 = 0
            · rw [if_pos hg]
            · rw [if_neg hg]
              by_cases hw : pt &&& 0x07 = 1
              · rw [if_pos hw]
              · rw [if_neg hw, if_neg hob]

/-- C8 counterexample: out-of-range coordinates do not make
`get_room_at_pixel` fail; Python indexing wraps negative indices. With
buffer `[0, 0, 0, 0x0F]`, width 2 and coordinates x = -1, y = 0 the
linear index is -1, which wraps to the last byte 0x0F: the call
succeeds and even reports room 1, where the claim demands a failure. -/
theorem c8_room_at_pixel_counterexample :
    getRoomAtPixel [0, 0, 0, 0x0F] 2 (-1) 0 = some (some 1) ∧
    getRoomAtPixel [0, 0, 0, 0x0F] 2 (-1) 0 ≠ none := by
  decide

/-- C8 amended: whenever the Python read of `raw_data[x + width * y]`
yields a byte (which includes negative indices down to minus the buffer
length, wrapping to the end, and any in-range linear index regardless
of whether x is inside its row), `get_room_at_pixel` returns exactly
the RoomFloor projection of that byte's classification: a room id if
and only if the byte classifies as RoomFloor (and then that byte's room
id), and `None` for every other category. It fails only when the linear
index is outside the Python index range, i.e. below minus the length or
at or above the length; out-of-range coordinates whose linear index
still falls in that range wrap instead of failing. -/
theorem c8_room_at_pixel_amended :
    (∀ (raw : List Nat) (width x y : Int) (pt : Nat),
      pyGetByte raw (x + width * y) = some pt →
      getRoomAtPixel raw width x y = some (roomFloorId (classifyPixel pt))) ∧
    (∀ (raw : List Nat) (width x y : Int),
      pyGetByte raw (x + width * y) = none →
      getRoomAtPixel raw width x y = none) := by
  constructor
  · intro raw width x y pt hread
    unfold getRoomAtPixel
    rw [hread]
    simp only [bind, Option.bind]
    rw [← getRoomAtPixel_classify pt]
    by_cases hcond : pt ≠ 0xFF ∧ pt ≠ 0x07
    · rw [if_pos hcond, if_pos hcond]
      by_cases hob : pt &&& 0x07 = 7
      · rw [if_pos hob, if_pos hob]
        rfl
      · rw [if_neg hob, if_neg hob]
        rfl
    · rw [if_neg hcond, if_neg hcond]
      rfl
  · intro raw width x y hread
    unfold getRoomAtPixel
    rw [hread]
    rfl

/-- C8 witness: the amended equivalence evaluated at the single
room-floor byte 0x0F at coordinates (0, 0): the classification is
RoomFloor with room id 1 and the lookup returns exactly that id. -/
theorem c8_room_at_pixel_witness :
    getRoomAtPixel [0x0F] 1 0 0 = some (some 1) :=
  (c8_room_at_pixel_amended.1 [0x0F] 1 0 0 0x0F (by decide)).trans (by decide)

/-- C4 counterexample: `_parse_mop_path` appends the current run after
the loop unconditionally, so a mask whose final byte is zero produces a
trailing empty polyline. For the single point p0 with mask [0] the set
of maximal non-zero runs is empty, but the code returns one (empty)
polyline - not "no other polylines" as the claim states. -/
theorem c4_mop_path_counterexample :
    parseMopPath ⟨1, 1, 0, [[⟨5, 6, none⟩]]⟩ [0] = some ⟨0, 1, 0, [[]]⟩ ∧
    maskRuns [(⟨5, 6, none⟩, 0)] = [] ∧
    ([[]] : List (List RPoint)) ≠ [] := by
  refine ⟨rfl, rfl, by decide⟩

/-- A masked sequence whose head is set always produces at least one
run. -/
theorem maskRuns_cons_ne_nil (qp : RPoint) (qm : Nat)
    (t : List (RPoint × Nat)) (hq : qm ≠ 0) : maskRuns ((qp, qm) :: t) ≠ [] := by
  unfold maskRuns
  rw [if_neg hq]
  cases t with
  | nil => simp
  | cons h2 t2 =>
    obtain ⟨p2, m2⟩ := h2
    by_cases hm2 : m2 = 0
    · simp [hm2]
    · cases hr : maskRuns ((p2, m2) :: t2) with
      | nil => simp [hm2, hr]
      | cons r1 rs => simp [hm2, hr]

/-- `lastSet` ignores every element but the last. -/
theorem lastSet_cons_cons (x y : RPoint × Nat) (t : List (RPoint × Nat)) :
    lastSet (x :: y :: t) = lastSet (y :: t) := rfl

/-- If the final mask byte of a sequence is set, the sequence has a
run. -/
theorem maskRuns_ne_nil_of_lastSet :
    ∀ zp : List (RPoint × Nat), lastSet zp = true → maskRuns zp ≠ [] := by
  intro zp
  induction zp with
  | nil => intro h; simp [lastSet] at h
  | cons hd t ih =>
    intro h
    obtain ⟨p, m⟩ := hd
    cases t with
    | nil =>
      have hm : m ≠ 0 := by simpa [lastSet] using h
      exact maskRuns_cons_ne_nil p m [] hm
    | cons h2 t2 =>
      rw [lastSet_cons_cons] at h
      by_cases hm : m = 0
      · unfold maskRuns
        rw [if_pos hm]
        exact ih h
      · exact maskRuns_cons_ne_nil p m (h2 :: t2) hm

/-- The polyline list `_parse_mop_path` produces for one polyline is
never empty (there is always at least the trailing append). -/
theorem maskRunsT_ne_nil (zp : List (RPoint × Nat)) : maskRunsT zp ≠ [] := by
  unfold maskRunsT
  cases hl : lastSet zp with
  | true =>
    rw [if_pos rfl]
    simpa using maskRuns_ne_nil_of_lastSet zp hl
  | false =>
    rw [if_neg (by simp)]
    simp

/-- Prepending the empty run changes nothing on a non-empty polyline
list. -/
theorem prependFirst_nil (l : List (List RPoint)) (h : l ≠ []) :
    prependFirst [] l = l := by
  cases l with
  | nil => exact absurd rfl h
  | cons a t => simp [prependFirst]

/-- The zipped loop equals: prepend the in-progress run onto the
polylines of the remaining sequence (maximal runs plus the trailing
append). -/
theorem consume_eq :
    ∀ (zp : List (RPoint × Nat)) (cur : List RPoint),
      consume zp cur = prependFirst cur (maskRunsT zp) := by
  intro zp
  induction zp with
  | nil =>
    intro cur
    simp [consume, maskRunsT, maskRuns, lastSet, prependFirst]
  | cons hd t ih =>
    intro cur
    obtain ⟨p, m⟩ := hd
    by_cases hm : m = 0
    · subst hm
      have h1 : consume ((p, 0) :: t) cur = consume t cur := rfl
      have h2 : maskRuns ((p, 0) :: t) = maskRuns t := rfl
      have h3 : lastSet ((p, 0) :: t) = lastSet t := by
        cases t with
        | nil => rfl
        | cons h2 t2 => rfl
      rw [h1, ih cur, maskRunsT, maskRunsT, h2, h3]
    · cases t with
      | nil =>
        have h1 : consume [(p, m)] cur = [cur ++ [p]] := by
          conv_lhs => unfold consume
          rw [if_neg hm]
          rfl
        have h2 : maskRuns [(p, m)] = [[p]] := by
          conv_lhs => unfold maskRuns
          rw [if_neg hm]
        have h3 : lastSet [(p, m)] = true := by
          simp [lastSet, hm]
        rw [h1, maskRunsT, h2, h3]
        simp [prependFirst]
      | cons q t2 =>
        obtain ⟨qp, qm⟩ := q
        by_cases hqm : qm = 0
        · subst hqm
          have h1 : consume ((p, m) :: (qp, 0) :: t2) cur =
              (cur ++ [p]) :: consume ((qp, 0) :: t2) [] := by
            conv_lhs => unfold consume
            rw [if_neg hm]
            rfl
          have h2 : maskRuns ((p, m) :: (qp, 0) :: t2) =
              [p] :: maskRuns ((qp, 0) :: t2) := by
            conv_lhs => unfold maskRuns
            rw [if_neg hm]
            rfl
          rw [h1, ih [], prependFirst_nil _ (maskRunsT_ne_nil _),
            maskRunsT, maskRunsT, h2, lastSet_cons_cons]
          simp [prependFirst, List.cons_append]
        · have hu : headUnset ((qp, qm) :: t2) = false := by
            simp [headUnset, hqm]
          have h1 : consume ((p, m) :: (qp, qm) :: t2) cur =
              consume ((qp, qm) :: t2) (cur ++ [p]) := by
            conv_lhs => unfold consume
            rw [if_neg hm, hu]
            simp
          obtain ⟨r1, rs, hr⟩ : ∃ r1 rs, maskRuns ((qp, qm) :: t2) = r1 :: rs := by
            cases hr : maskRuns ((qp, qm) :: t2) with
            | nil => exact absurd hr (maskRuns_cons_ne_nil qp qm t2 hqm)
            | cons a b => exact ⟨a, b, rfl⟩
          have h2 : maskRuns ((p, m) :: (qp, qm) :: t2) = (p :: r1) :: rs := by
            conv_lhs => unfold maskRuns
            rw [if_neg hm]
            simp [hqm, hr]
          rw [h1, ih (cur ++ [p]), maskRunsT, maskRunsT, h2, hr,
            lastSet_cons_cons]
          simp [prependFirst, List.cons_append, List.append_assoc]

/-- Zipped-loop step: an unset point is skipped. -/
theorem consume_cons_zero (p : RPoint) (rest : List (RPoint × Nat))
    (cur : List RPoint) : consume ((p, 0) :: rest) cur = consume rest cur := rfl

/-- Zipped-loop step: a set point followed by an unset one flushes the
current run. -/
theorem consume_cons_flush (p : RPoint) (m : Nat) (rest : List (RPoint × Nat))
    (cur : List RPoint) (hm : m ≠ 0) (hu : headUnset rest = true) :
    consume ((p, m) :: rest) cur = (cur ++ [p]) :: consume rest [] := by
  conv_lhs => unfold consume
  rw [if_neg hm, hu]
  rfl

/-- Zipped-loop step: a set point not followed by an unset one extends
the current run. -/
theorem consume_cons_cont (p : RPoint) (m : Nat) (rest : List (RPoint × Nat))
    (cur : List RPoint) (hm : m ≠ 0) (hu : headUnset rest = false) :
    consume ((p, m) :: rest) cur = consume rest (cur ++ [p]) := by
  conv_lhs => unfold consume
  rw [if_neg hm, hu]
  rfl

/-- One unfolding of the source loop when the mask byte at the current
index is known. -/
theorem mopLoop_cons (mask : List Nat) (p : RPoint) (ps : List RPoint)
    (i : Nat) (cur : List RPoint) (acc : List (List RPoint)) (num : Nat)
    (m : Nat) (hget : mask.get? i = some m) :
    mopLoop mask (p :: ps) i cur acc num =
      if m ≠ 0 then
        if i + 1 < mask.length ∧ mask.getD (i + 1) 0 = 0 then
          mopLoop mask ps (i + 1) [] (acc ++ [cur ++ [p]])
            (num + (cur ++ [p]).length)
        else
          mopLoop mask ps (i + 1) (cur ++ [p]) acc num
      else
        mopLoop mask ps (i + 1) cur acc num := by
  conv_lhs => unfold mopLoop
  rw [hget]

/-- Invariant of the mop-path loop: when the mask covers the remaining
points (length alignment), the loop never raises and produces exactly
the polylines of the zipped-loop view, appended to the accumulator,
with the point count increased by their total length. -/
theorem mopLoop_eq (mask : List Nat) :
    ∀ (pts : List RPoint) (i : Nat) (cur : List RPoint)
      (acc : List (List RPoint)) (num : Nat),
      mask.length = i + pts.length →
      mopLoop mask pts i cur acc num =
        some (acc ++ consume (pts.zip (mask.drop i)) cur,
              num + sumLens (consume (pts.zip (mask.drop i)) cur)) := by
  intro pts
  induction pts with
  | nil =>
    intro i cur acc num h
    have hdrop : mask.drop i = [] := List.drop_eq_nil_of_le (by simp at h; omega)
    rw [hdrop]
    simp [mopLoop, consume, sumLens]
  | cons p ps ih =>
    intro i cur acc num h
    rw [List.length_cons] at h
    have hi : i < mask.length := by omega
    have hdrop : mask.drop i = mask[i] :: mask.drop (i + 1) :=
      List.drop_eq_getElem_cons hi
    have hget : mask.get? i = some mask[i] := by
      rw [List.get?_eq_get hi]
      rfl
    rw [mopLoop_cons mask p ps i cur acc num mask[i] hget, hdrop]
    simp only [List.zip_cons_cons]
    by_cases hm : mask[i] = 0
    · rw [if_neg (not_not_intro hm)]
      rw [ih (i + 1) cur acc num (by omega)]
      rw [hm, consume_cons_zero]
    · rw [if_pos hm]
      cases ps with
      | nil =>
        simp only [List.length_nil] at h
        have hcond : ¬(i + 1 < mask.length ∧ mask.getD (i + 1) 0 = 0) := by
          intro hc
          omega
        rw [if_neg hcond]
        rw [ih (i + 1) (cur ++ [p]) acc num
          (by simp only [List.length_nil]; omega)]
        have hdrop2 : mask.drop (i + 1) = [] :=
          List.drop_eq_nil_of_le (by omega)
        rw [hdrop2]
        simp only [List.zip_nil_left]
        rw [consume_cons_cont p mask[i] [] cur hm rfl]
      | cons q ps2 =>
        simp only [List.length_cons] at h
        have hi2 : i + 1 < mask.length := by omega
        have hdrop2 : mask.drop (i + 1) = mask[i + 1] :: mask.drop (i + 2) :=
          List.drop_eq_getElem_cons hi2
        have hgetD : mask.getD (i + 1) 0 = mask[i + 1] :=
          List.getD_eq_getElem mask 0 hi2
        rw [hdrop2]
        simp only [List.zip_cons_cons]
        by_cases hm2 : mask[i + 1] = 0
        · rw [if_pos ⟨hi2, by rw [hgetD]; exact hm2⟩]
          rw [ih (i + 1) [] (acc ++ [cur ++ [p]]) (num + (cur ++ [p]).length)
            (by simp only [List.length_cons]; omega)]
          rw [hdrop2]
          simp only [List.zip_cons_cons]
          rw [consume_cons_flush p mask[i] _ cur hm (by simp [headUnset, hm2])]
          simp [sumLens, List.append_assoc, Nat.add_assoc]
        · rw [if_neg (by rw [hgetD]; intro hc; exact hm2 hc.2)]
          rw [ih (i + 1) (cur ++ [p]) acc num
            (by simp only [List.length_cons]; omega)]
          rw [hdrop2]
          simp only [List.zip_cons_cons]
          rw [consume_cons_cont p mask[i] _ cur hm (by simp [headUnset, hm2])]

/-- The trailing empty polyline contributes nothing to the point
count. -/
theorem sumLens_maskRunsT (zp : List (RPoint × Nat)) :
    sumLens (maskRunsT zp) = sumLens (maskRuns zp) := by
  unfold maskRunsT
  cases lastSet zp <;> simp [sumLens]

/-- C4 amended: for a Path with a single polyline of n points and a
mask of n bytes, `_parse_mop_path` returns the maximal contiguous runs
of mask-set points, in source order, **plus one trailing empty
polyline whenever the final mask byte is zero or the polyline is
empty** (the run list `maskRunsT`), and its total point count equals
the sum of the run lengths. In particular the claim's example
[p0..p4] with mask [1,1,0,1,1] yields exactly [p0,p1] and [p3,p4] with
total point count 4 (the final byte is set, so no trailing empty
polyline appears there). -/
theorem c4_mop_path_amended (points : List RPoint) (mask : List Nat)
    (n s a : Nat) (h : mask.length = points.length) :
    parseMopPath ⟨n, s, a, [points]⟩ mask =
      some ⟨sumLens (maskRuns (points.zip mask)), s, a,
            maskRunsT (points.zip mask)⟩ := by
  unfold parseMopPath mopPathsLoop
  rw [mopLoop_eq mask points 0 [] [] 0 (by omega)]
  simp only [bind, Option.bind, List.drop_zero, List.nil_append, Nat.zero_add]
  rw [consume_eq, prependFirst_nil _ (maskRunsT_ne_nil _), sumLens_maskRunsT]
  rfl

/-- C4 witness: the amended statement evaluated on the spec's own
example, five points with mask [1,1,0,1,1]: exactly the two runs
[p0,p1] and [p3,p4] and total point count 4. -/
theorem c4_mop_path_witness :
    parseMopPath ⟨5, 1, 7, [[⟨0, 0, none⟩, ⟨1, 1, none⟩, ⟨2, 2, none⟩,
        ⟨3, 3, none⟩, ⟨4, 4, none⟩]]⟩ [1, 1, 0, 1, 1] =
      some ⟨4, 1, 7, [[⟨0, 0, none⟩, ⟨1, 1, none⟩],
        [⟨3, 3, none⟩, ⟨4, 4, none⟩]]⟩ := by
  have h := c4_mop_path_amended
    [⟨0, 0, none⟩, ⟨1, 1, none⟩, ⟨2, 2, none⟩, ⟨3, 3, none⟩, ⟨4, 4, none⟩]
    [1, 1, 0, 1, 1] 5 1 7 (by decide)
  exact h.trans (by decide)

/-- Sanity of the runs definition: concatenating the runs gives exactly
the mask-set points, in source order. -/
theorem maskRuns_flatten :
    ∀ zp : List (RPoint × Nat),
      (maskRuns zp).flatten = (zp.filter (fun x => x.2 ≠ 0)).map Prod.fst := by
  intro zp
  induction zp with
  | nil => rfl
  | cons hd t ih =>
    obtain ⟨p, m⟩ := hd
    by_cases hm : m = 0
    · subst hm
      have h1 : maskRuns ((p, 0) :: t) = maskRuns t := rfl
      rw [h1, ih, List.filter_cons_of_neg (by simp)]
    · cases t with
      | nil =>
        have h1 : maskRuns [(p, m)] = [[p]] := by
          conv_lhs => unfold maskRuns
          rw [if_neg hm]
        rw [h1]
        simp [hm]
      | cons q t2 =>
        obtain ⟨qp, qm⟩ := q
        by_cases hqm : qm = 0
        · subst hqm
          have h1 : maskRuns ((p, m) :: (qp, 0) :: t2) =
              [p] :: maskRuns ((qp, 0) :: t2) := by
            conv_lhs => unfold maskRuns
            rw [if_neg hm]
            rfl
          rw [h1, List.flatten_cons, ih]
          simp [hm]
        · obtain ⟨r1, rs, hr⟩ : ∃ r1 rs,
              maskRuns ((qp, qm) :: t2) = r1 :: rs := by
            cases hr : maskRuns ((qp, qm) :: t2) with
            | nil => exact absurd hr (maskRuns_cons_ne_nil qp qm t2 hqm)
            | cons a b => exact ⟨a, b, rfl⟩
          have h1 : maskRuns ((p, m) :: (qp, qm) :: t2) = (p :: r1) :: rs := by
            conv_lhs => unfold maskRuns
            rw [if_neg hm]
            simp [hqm, hr]
          rw [hr, List.flatten_cons] at ih
          rw [h1, List.flatten_cons, List.cons_append, ih]
          simp [hm]

/-- Sanity of the runs definition: no run is empty (only the trailing
append of the code can produce an empty polyline). -/
theorem maskRuns_no_empty :
    ∀ zp : List (RPoint × Nat), ¬ ([] ∈ maskRuns zp) := by
  intro zp
  induction zp with
  | nil => simp [maskRuns]
  | cons hd t ih =>
    obtain ⟨p, m⟩ := hd
    by_cases hm : m = 0
    · subst hm
      have h1 : maskRuns ((p, 0) :: t) = maskRuns t := rfl
      rw [h1]
      exact ih
    · cases t with
      | nil =>
        have h1 : maskRuns [(p, m)] = [[p]] := by
          conv_lhs => unfold maskRuns
          rw [if_neg hm]
        rw [h1]
        simp
      | cons q t2 =>
        obtain ⟨qp, qm⟩ := q
        by_cases hqm : qm = 0
        · subst hqm
          have h1 : maskRuns ((p, m) :: (qp, 0) :: t2) =
              [p] :: maskRuns ((qp, 0) :: t2) := by
            conv_lhs => unfold maskRuns
            rw [if_neg hm]
            rfl
          rw [h1]
          simp only [List.mem_cons]
          rintro (hc | hc)
          · exact List.cons_ne_nil p [] hc.symm
          · exact ih hc
        · obtain ⟨r1, rs, hr⟩ : ∃ r1 rs,
              maskRuns ((qp, qm) :: t2) = r1 :: rs := by
            cases hr : maskRuns ((qp, qm) :: t2) with
            | nil => exact absurd hr (maskRuns_cons_ne_nil qp qm t2 hqm)
            | cons a b => exact ⟨a, b, rfl⟩
          have h1 : maskRuns ((p, m) :: (qp, qm) :: t2) = (p :: r1) :: rs := by
            conv_lhs => unfold maskRuns
            rw [if_neg hm]
            simp [hqm, hr]
          rw [h1]
          simp only [List.mem_cons]
          rintro (hc | hc)
          · exact List.cons_ne_nil p r1 hc.symm
          · exact ih (hr ▸ List.mem_cons_of_mem r1 hc)
